import Mathlib

/-!
Shallow embedding of the two source files of the Open-Catalyst-Dataset
`pourbaix` pipeline:

* `src/pourbaix/download_data/get_entries_utils.py` — pagination over the
  OQMD REST API, conversion of OQMD entries to atoms objects, and writing
  them to an ASE database.
* `src/pourbaix/mprester_ocp.py` — assembly of Pourbaix entries from
  Materials Project ion reference data plus additional entries.

External scientific-library calls (pymatgen, ASE, the REST client) are
modelled as uninterpreted functions supplied as parameters; the control
flow and arithmetic of the repository's own code are embedded faithfully.
Python floats are modelled as `Rat`; float parsing is an abstract
parameter.
-/

namespace OCP

/-! ## get_entries_utils.py -/

/-- One response page of the OQMD REST API: the `"data"` list and the
truthiness of `"links"["next"]`. The item type is abstract. -/
structure OqmdPage (α : Type) where
  data : List α
  next : Bool
deriving DecidableEq, Repr

/-- The keyword arguments of a `get_oqmd_phases` request issued by
`get_all_entries`: `limit`, `offset` and the fixed `filter` string. -/
structure OqmdRequest where
  limit : Nat
  offset : Nat
  filter : String
deriving DecidableEq, Repr

/-- The keyword arguments of a `get_oqmd_phases` request issued by
`get_icsd_entries`: `limit`, `offset` and `icsd`. -/
structure IcsdRequest where
  limit : Nat
  offset : Nat
  icsd : String
deriving DecidableEq, Repr

/-- The filter string hard-coded in `get_all_entries`. -/
def oqmdFilter : String := "stability <= 0.1 AND delta_e <= 0 AND ntypes < 4"

/-- `batch_num <= maximum_pages`, where `maximum_pages` is `np.inf`
(`none`) by default or a number (`some m`). -/
def leMaxPages (batchNum : Nat) : Option Nat → Bool
  | none => true
  | some m => batchNum ≤ m

/-- The `while continue_bool` loop of `get_all_entries`
(`get_entries_utils.py` lines 24-37), with the OQMD server abstracted as a
map `pages` from batch number to response page.  The loop issues a request,
appends the page's `"data"` to `cumulative_data`, increments `batch_num`,
and continues while the page has a next link and `batch_num` is within
`maximum_pages`.  `fuel` bounds the number of iterations so the function is
total; `none` means the fuel ran out before the loop exited. -/
def getAllEntriesLoop {α : Type} (pages : Nat → OqmdPage α)
    (maximumPages : Option Nat) (pageLimit : Nat) :
    Nat → Nat → List α → List OqmdRequest →
    Option (List α × List OqmdRequest)
  | 0, _, _, _ => none
  | fuel + 1, batchNum, cumulativeData, reqs =>
    let req : OqmdRequest := ⟨pageLimit, batchNum * pageLimit, oqmdFilter⟩
    let data := pages batchNum
    let cumulativeData2 := cumulativeData ++ data.data
    let batchNum2 := batchNum + 1
    if data.next && leMaxPages batchNum2 maximumPages then
      getAllEntriesLoop pages maximumPages pageLimit fuel batchNum2
        cumulativeData2 (reqs ++ [req])
    else
      some (cumulativeData2, reqs ++ [req])

/-- `get_all_entries` (`get_entries_utils.py` lines 10-38): runs the
pagination loop from `batch_num = 0` with empty accumulators, returning the
cumulative data together with the list of requests issued, in order. -/
def get_all_entries {α : Type} (pages : Nat → OqmdPage α)
    (maximumPages : Option Nat) (pageLimit : Nat) (fuel : Nat) :
    Option (List α × List OqmdRequest) :=
  getAllEntriesLoop pages maximumPages pageLimit fuel 0 [] []

/-- `get_icsd_entries` (`get_entries_utils.py` lines 41-65).  The body sets
up `continue_bool`, `batch_num` and `cumulative_data` exactly as
`get_all_entries` does, but contains no `while` statement: the `with` block
runs once, so exactly one request (offset `0 * page_limit`) is issued and
only the first page's `"data"` is returned.  The final assignments to
`continue_bool` and `batch_num` are dead code and are elided. -/
def get_icsd_entries {α : Type} (pages : Nat → OqmdPage α)
    (maximumPages : Option Nat) (pageLimit : Nat) :
    List α × List IcsdRequest :=
  let batchNum := 0
  let req : IcsdRequest := ⟨pageLimit, batchNum * pageLimit, "T"⟩
  let data := pages batchNum
  let cumulativeData : List α := [] ++ data.data
  (cumulativeData, [req])

/-- A pymatgen `Lattice` built from a raw unit-cell value (the cell type is
abstract: lattice math is delegated to pymatgen). -/
structure PmgLattice (C : Type) where
  cell : C
deriving DecidableEq, Repr

/-- A pymatgen `Structure` as used by `get_ase_object`: a lattice, the
species list and the fractional-coordinate rows.  `F` is the abstract type
of parsed floats. -/
structure PmgStructure (C F : Type) where
  lattice : PmgLattice C
  species : List String
  coords : List (List F)
deriving DecidableEq, Repr

/-- An ASE atoms object.  `adaptor.get_atoms` is modelled as the injective
wrapper of the structure it converts. -/
structure AseAtoms (C F : Type) where
  struct : PmgStructure C F
deriving DecidableEq, Repr

/-- A dict-like OQMD entry as consumed by `get_ase_object` and
`write_data`: the fields the code reads (`"unit_cell"`, `"sites"`,
`"entry_id"`, `"delta_e"`) and the two keys the code writes
(`"atoms_obj"`, `"pmg_struct"`), absent (`none`) on input. -/
structure OqmdEntry (C F : Type) where
  unit_cell : C
  sites : List String
  entry_id : Nat
  delta_e : F
  atoms_obj : Option (AseAtoms C F) := none
  pmg_struct : Option (PmgStructure C F) := none
deriving DecidableEq, Repr

/-- `get_ase_object` (`get_entries_utils.py` lines 68-86).  For each site
string it computes `info = atom_info.split(" ")`, appends `info[0]` to the
element list and `[float(x) for x in info[2:]]` to the coordinate list,
builds `Structure(Lattice(cell), elems, coords)`, converts it with the ASE
adaptor, stores the result under `"atoms_obj"` and `"pmg_struct"` on the
entry, and returns the atoms object (paired here with the mutated entry).
`parseFloat` abstracts Python `float`; `split(" ")` is `String.splitOn " "`
(both split at every single space, keeping empty tokens, and return a
nonempty list, so `info[0]` never faults). -/
def get_ase_object {C F : Type} (parseFloat : String → F)
    (entry : OqmdEntry C F) : AseAtoms C F × OqmdEntry C F :=
  let cell := entry.unit_cell
  let elems := entry.sites.map (fun atom_info => (atom_info.splitOn " ").headD "")
  let coords := entry.sites.map
    (fun atom_info => ((atom_info.splitOn " ").drop 2).map parseFloat)
  let lattice : PmgLattice C := ⟨cell⟩
  let s : PmgStructure C F := ⟨lattice, elems, coords⟩
  let atomsObj : AseAtoms C F := ⟨s⟩
  (atomsObj, { entry with atoms_obj := some atomsObj, pmg_struct := some s })

/-- One row written to the ASE database by `write_data`: the atoms object
and the three keyword fields of `db.write`. -/
structure DbRow (C F : Type) where
  atoms : AseAtoms C F
  source : String
  bulk_id : String
  formation_energy : F
deriving DecidableEq, Repr

/-- `write_data` (`get_entries_utils.py` lines 89-103): for each entry, in
list order, builds the atoms object with `get_ase_object` and writes one
row with `source="oqmd"`, `bulk_id="oqmd-" + str(entry["entry_id"])` and
`formation_energy=entry["delta_e"]`.  The database is modelled as the list
of written rows. -/
def write_data {C F : Type} (parseFloat : String → F)
    (entries : List (OqmdEntry C F)) : List (DbRow C F) :=
  entries.map (fun entry =>
    let atoms := (get_ase_object parseFloat entry).1
    let oqmd_id := "oqmd-" ++ toString entry.entry_id
    ⟨atoms, "oqmd", oqmd_id, entry.delta_e⟩)

/-! ## mprester_ocp.py -/

/-- A pymatgen `Composition` as used by the Pourbaix assembly routine,
retaining the results of the external library operations the code calls:
the element amounts (`composition[elt]`), the element symbols
(`.elements`, as strings, so `str(e)` is the identity), the reduced
formula, and the factor returned second by
`get_reduced_composition_and_factor()`.  Formula parsing and reduction are
delegated to pymatgen and therefore appear here as stored data. -/
structure Composition where
  amounts : List (String × Rat)
  elements : List String
  reduced_formula : String
  reduced_factor : Rat
deriving DecidableEq, Repr

/-- `composition[elt]`: the amount of element `elt`, `0` when absent. -/
def Composition.amt (c : Composition) (elt : String) : Rat :=
  ((c.amounts.find? (fun p => p.1 == elt)).map Prod.snd).getD 0

/-- A pymatgen `Ion` (`Ion.from_formula` output); the code only reads its
composition. -/
structure PmgIon where
  composition : Composition
deriving DecidableEq, Repr

/-- An entry returned by `get_entries_in_chemsys` (and fed through
`compat.process_entries`): its composition, the requested
`data["e_above_hull"]` property, and its `entry_id`. -/
structure MPEntry where
  composition : Composition
  e_above_hull : Rat
  entry_id : String
deriving DecidableEq, Repr

/-- One ion record of the Materials Project Pourbaix reference data, with
the keys `get_pourbaix_entries_w_add_entries` reads. -/
structure IonRecord where
  name : String
  energy : Rat
  referenceSolid : String
  referenceSolidEnergy : Rat
  majorElements : List String
deriving DecidableEq, Repr

/-- A pymatgen `IonEntry(ion, energy)`. -/
structure MPIonEntry where
  ion : PmgIon
  energy : Rat
deriving DecidableEq, Repr

/-- A pymatgen `ComputedEntry(composition, energy, entry_id=...)` as built
in the solid loop. -/
structure MPComputedEntry where
  composition : Composition
  energy : Rat
  entry_id : String
deriving DecidableEq, Repr

/-- A `PourbaixEntry`: either an ion entry with its `"ion-{n}"` label or a
solid entry wrapping a computed entry. -/
inductive PbxEntry where
  | ionE (entry : MPIonEntry) (label : String)
  | solidE (entry : MPComputedEntry)
deriving DecidableEq, Repr

/-- A Python exception raised by the routine's own `raise` statements. -/
inductive PyError where
  | valueError (msg : String)
deriving DecidableEq, Repr

/-- The `chemsys` argument: either a dash-separated string or a list of
element symbols. -/
inductive ChemsysArg where
  | ofString (s : String)
  | ofList (l : List String)
deriving DecidableEq, Repr

/-- Lines 53-54: a string chemsys is split on `"-"`. -/
def chemsysElements : ChemsysArg → List String
  | .ofString s => s.splitOn "-"
  | .ofList l => l

/-- The `solid_compat` argument: one of the recognized strings, some other
string, an instance of a `Compatibility` subclass (identified by a tag), or
any other Python value (e.g. a class object or `None`), which is neither
equal to the strings nor an instance of `Compatibility`. -/
inductive SolidCompatArg where
  | ofString (s : String)
  | compatInstance (tag : String)
  | otherValue (tag : String)
deriving DecidableEq, Repr

/-- The compatibility scheme stored on `self.solid_compat` after
validation. -/
inductive SolidCompatScheme where
  | mpCompat
  | mp2020Compat
  | givenInstance (tag : String)
deriving DecidableEq, Repr

/-- Lines 39-49: the `if`/`elif` chain validating `solid_compat`.  `none`
means the final `else` branch, which raises `ValueError`. -/
def validateSolidCompat : SolidCompatArg → Option SolidCompatScheme
  | .ofString s =>
    if s = "MaterialsProjectCompatibility" then some .mpCompat
    else if s = "MaterialsProject2020Compatibility" then some .mp2020Compat
    else none
  | .compatInstance t => some (.givenInstance t)
  | .otherValue _ => none

/-- The message of the `ValueError` raised on invalid `solid_compat`. -/
def solidCompatErrMsg : String :=
  "Solid compatibility can only be 'MaterialsProjectCompatibility', " ++
  "'MaterialsProject2020Compatibility', or an instance of a Compatibility class"

/-- The message of the `ValueError` raised when an ion's reference solid is
not found among the reference entries. -/
def refSolidErrMsg : String := "Reference solid not contained in entry list"

/-- The external world the routine interacts with: the REST responses and
the pymatgen library functions, all uninterpreted.
`ionData` is the parsed response of `_make_request` on the reference-data
URL for the given chemsys; `compOfFormula` is `Composition(formula)`;
`ionFromFormula` is `Ion.from_formula(name)`; `getEntriesInChemsys` is the
MPRester query with `property_data=["e_above_hull"]`;
`processEntries` is `MaterialsProjectAqueousCompatibility(...)
.process_entries`; `formEnergyOfPD entries e` is
`PhaseDiagram(entries).get_form_energy(e)`. -/
structure MPWorld where
  ionData : List String → List IonRecord
  compOfFormula : String → Composition
  ionFromFormula : String → PmgIon
  getEntriesInChemsys : List String → List MPEntry
  processEntries : List MPEntry → List MPEntry
  formEnergyOfPD : List MPEntry → MPEntry → Rat

/-- One comparison step of the running-minimum fold over `e_above_hull`:
keep the strictly smaller element, preferring the earlier one on ties. -/
def minEAHStep (acc x : MPEntry) : MPEntry :=
  if x.e_above_hull < acc.e_above_hull then x else acc

/-- `sorted(refs, key=lambda x: x.data["e_above_hull"])[0]` on a nonempty
list: Python's sort is stable, so index 0 holds the first element attaining
the minimal `e_above_hull`, i.e. the left fold of `minEAHStep`.  `none`
corresponds to the `if not refs` raise. -/
def firstMinEAH : List MPEntry → Option MPEntry
  | [] => none
  | e :: es => some (es.foldl minEAHStep e)

/-- Lines 60-63: `ion_ref_comps` flattened into the element list
`ion_ref_elts` via `itertools.chain.from_iterable`. -/
def ionRefElts (w : MPWorld) (chemsysL : List String) : List String :=
  (((w.ionData chemsysL).map (fun d => w.compOfFormula d.referenceSolid)).map
    Composition.elements).flatten

/-- Lines 64-68 and 85: the entries of the reference chemical system
(`set` of the element strings plus `"O"` and `"H"`, modelled as `dedup`),
after `compat.process_entries`. -/
def ionRefEntries (w : MPWorld) (chemsysL : List String) : List MPEntry :=
  w.processEntries
    (w.getEntriesInChemsys ((ionRefElts w chemsysL ++ ["O", "H"]).dedup))

/-- Lines 89-109, body of the ion loop for index `n` and record `i_d`:
build the ion, filter the reference entries by reduced formula, raise
`ValueError` when none matches, otherwise align the ion energy against the
most stable matching reference entry and produce the labelled
`PourbaixEntry`.  Division is `Rat` division (total). -/
def mkIonEntry (w : MPWorld) (ionRefPdE : MPEntry → Rat)
    (ion_ref_entries : List MPEntry) (n : Nat) (i_d : IonRecord) :
    Except PyError PbxEntry :=
  let ion := w.ionFromFormula i_d.name
  let refs := ion_ref_entries.filter
    (fun e => e.composition.reduced_formula == i_d.referenceSolid)
  match firstMinEAH refs with
  | none => .error (.valueError refSolidErrMsg)
  | some stable_ref =>
    let rf := stable_ref.composition.reduced_factor
    let solid_diff := ionRefPdE stable_ref - i_d.referenceSolidEnergy * rf
    let elt := i_d.majorElements.headD ""
    let correction_factor :=
      ion.composition.amt elt / stable_ref.composition.amt elt
    let energy := i_d.energy + solid_diff * correction_factor
    .ok (.ionE ⟨ion, energy⟩ ("ion-" ++ toString n))

/-- The `for n, i_d in enumerate(ion_data)` loop: entries are appended in
order; the first `raise` aborts the whole call. -/
def processIons (f : Nat → IonRecord → Except PyError PbxEntry) :
    Nat → List IonRecord → Except PyError (List PbxEntry)
  | _, [] => .ok []
  | n, d :: ds =>
    match f n d with
    | .error e => .error e
    | .ok pe =>
      match processIons f (n + 1) ds with
      | .error e => .error e
      | .ok rest => .ok (pe :: rest)

/-- Lines 113-117: `extra_elts = set(ion_ref_elts) - {Element(s) for s in
chemsys} - {Element("H"), Element("O")}`, kept as a list whose membership
is the set membership. -/
def extraElts (ion_ref_elts chemsysL : List String) : List String :=
  ion_ref_elts.filter
    (fun e => !(chemsysL.contains e) && e != "H" && e != "O")

/-- Lines 120-125: the filter of the solid loop. An entry is kept when its
element set is neither a subset of `{H, O}` nor intersects `extra_elts`. -/
def keepSolid (extra_elts : List String) (entry : MPEntry) : Bool :=
  let entry_elts := entry.composition.elements
  !(entry_elts.all (fun e => e == "H" || e == "O") ||
    extra_elts.any (fun e => entry_elts.contains e))

/-- Lines 126-132: the solid `PourbaixEntry` built from a kept entry, with
formation energy from the phase diagram. -/
def mkSolidEntry (ionRefPdE : MPEntry → Rat) (entry : MPEntry) : PbxEntry :=
  .solidE ⟨entry.composition, ionRefPdE entry, entry.entry_id⟩

/-- The outcome of a call: the returned entry list or the raised error,
together with the log of network requests issued (the reference-data URL
of `_make_request` and a tag for the `get_entries_in_chemsys` query). -/
structure PbxOutcome where
  result : Except PyError (List PbxEntry)
  requests : List String
deriving Repr

/-- `"/pourbaix_diagram/reference_data/" + "-".join(chemsys)`. -/
def pbxRefDataUrl (chemsysL : List String) : String :=
  "/pourbaix_diagram/reference_data/" ++ String.intercalate "-" chemsysL

/-- `get_pourbaix_entries_w_add_entries` (`mprester_ocp.py` lines 20-134):
validate `solid_compat` (raising `ValueError` before any request on
failure), fetch the ion reference data and the reference entries, process
them through the aqueous compatibility scheme, build one labelled ion
`PourbaixEntry` per ion record, then append one solid `PourbaixEntry` for
each kept entry of the processed reference entries concatenated with
`additional_entries`. -/
def get_pourbaix_entries_w_add_entries (w : MPWorld) (chemsys : ChemsysArg)
    (solid_compat : SolidCompatArg) (additional_entries : List MPEntry) :
    PbxOutcome :=
  match validateSolidCompat solid_compat with
  | none => ⟨.error (.valueError solidCompatErrMsg), []⟩
  | some _ =>
    let chemsysL := chemsysElements chemsys
    let url := pbxRefDataUrl chemsysL
    let ion_data := w.ionData chemsysL
    let ion_ref_elts := ionRefElts w chemsysL
    let ion_ref_entries := ionRefEntries w chemsysL
    let reqLog := [url, "get_entries_in_chemsys"]
    let ionRefPdE := w.formEnergyOfPD ion_ref_entries
    match processIons (mkIonEntry w ionRefPdE ion_ref_entries) 0 ion_data with
    | .error e => ⟨.error e, reqLog⟩
    | .ok ionEntries =>
      let extra_elts := extraElts ion_ref_elts chemsysL
      let all_entries := ion_ref_entries ++ additional_entries
      let solids := (all_entries.filter (keepSolid extra_elts)).map
        (mkSolidEntry ionRefPdE)
      ⟨.ok (ionEntries ++ solids), reqLog⟩

/-! ### Module-level name resolution (for the missing imports) -/

/-- The names bound at module level in `mprester_ocp.py`: the ten imported
names (lines 1-11) and the class defined by the module itself. -/
def mpresterModuleNames : List String :=
  ["MPRester", "Composition", "PhaseDiagram", "IonEntry", "PourbaixEntry",
   "Ion", "Compatibility", "MaterialsProject2020Compatibility",
   "MaterialsProjectAqueousCompatibility", "MaterialsProjectCompatibility",
   "MPRester_x_OCP"]

/-- The module-global (neither local nor builtin) names referenced by the
body of `get_pourbaix_entries_w_add_entries` after the `solid_compat`
validation succeeds, in execution order on a run where every external call
returns normally (line numbers: 60, 62, 72, 73, 77, 81, 82, 86, 90, 108,
109 inside the loop, then 115, 116 twice, 123 twice, 128). -/
def pbxBodyGlobalRefs : List String :=
  ["Composition", "itertools", "warnings", "warnings",
   "MaterialsProjectAqueousCompatibility", "warnings", "warnings",
   "PhaseDiagram", "Ion", "IonEntry", "PourbaixEntry",
   "Element", "Element", "Element", "Element", "Element", "ComputedEntry"]

/-- CPython name resolution for a module-global reference: the first name
of the sequence not bound in the module (and not a builtin) raises
`NameError` there; if all resolve, execution completes. -/
def firstUndefinedName (defined : List String) : List String → Option String
  | [] => none
  | n :: ns =>
    if defined.contains n then firstUndefinedName defined ns else some n

/-! ### Concrete sample data (used to exercise the definitions) -/

/-- A sample composition standing for `ZnO`. -/
def sampleCompZnO : Composition := ⟨[("Zn", 1), ("O", 1)], ["Zn", "O"], "ZnO", 1⟩

/-- A sample composition standing for the `Zn[2+]` ion. -/
def sampleCompZn : Composition := ⟨[("Zn", 1)], ["Zn"], "Zn", 1⟩

/-- A sample reference entry whose reduced formula is `ZnO`. -/
def sampleRefEntry : MPEntry := ⟨sampleCompZnO, 0, "mp-1"⟩

/-- A sample ion record: `Zn[2+]` with energy `2`, reference solid `ZnO`
of reference energy `3`, major element `Zn`. -/
def sampleIonRecord : IonRecord := ⟨"Zn[2+]", 2, "ZnO", 3, ["Zn"]⟩

/-- A sample world in which the reference solid of the single ion record is
available, `process_entries` is the identity, and every formation energy is
`5`. -/
def sampleWorld : MPWorld :=
  ⟨fun _ => [sampleIonRecord], fun _ => sampleCompZnO, fun _ => ⟨sampleCompZn⟩,
   fun _ => [sampleRefEntry], fun l => l, fun _ _ => 5⟩

/-- Like `sampleWorld` but the chemsys query returns no entries, so the ion
record's reference solid is missing. -/
def sampleWorldNoRef : MPWorld :=
  ⟨fun _ => [sampleIonRecord], fun _ => sampleCompZnO, fun _ => ⟨sampleCompZn⟩,
   fun _ => [], fun l => l, fun _ _ => 5⟩

/-- The ion Pourbaix entry produced for `sampleIonRecord` in `sampleWorld`:
`solid_diff = 5 - 3 * 1 = 2`, `correction_factor = 1/1`, energy
`2 + 2 * 1 = 4`. -/
def sampleIonPbx : PbxEntry := .ionE ⟨⟨sampleCompZn⟩, 4⟩ "ion-0"

/-- The solid Pourbaix entry produced for `sampleRefEntry` in
`sampleWorld`. -/
def sampleSolidPbx : PbxEntry := .solidE ⟨sampleCompZnO, 5, "mp-1"⟩

/-- The full entry list returned on the sample run. -/
def sampleOut : List PbxEntry := [sampleIonPbx, sampleSolidPbx]

/-- A sample OQMD entry with a single site string, abstract cell `0` and
floats kept as strings. -/
def sampleOqmdEntry : OqmdEntry Nat String :=
  { unit_cell := 0, sites := ["Zn @ 0.5 0.25 0.125"], entry_id := 42,
    delta_e := "-1.5" }

/-- A sample OQMD server: page `i` holds the single datum `i`, and only the
first two pages advertise a next link. -/
def samplePages : Nat → OqmdPage Nat := fun i => ⟨[i], decide (i < 2)⟩

/-- The three requests `get_all_entries` issues against `samplePages` with
`page_limit = 2`. -/
def sampleReqs : List OqmdRequest :=
  [⟨2, 0, oqmdFilter⟩, ⟨2, 2, oqmdFilter⟩, ⟨2, 4, oqmdFilter⟩]

/-! ## Helper lemmas -/

theorem foldl_minEAHStep_mem (es : List MPEntry) (e : MPEntry) :
    es.foldl minEAHStep e ∈ e :: es := by
  induction es generalizing e with
  | nil => simp
  | cons x xs ih =>
    rcases List.mem_cons.mp (ih (minEAHStep e x)) with h | h
    · rw [List.foldl_cons, h]
      by_cases hx : x.e_above_hull < e.e_above_hull
      · simp [minEAHStep, hx]
      · simp [minEAHStep, hx]
    · rw [List.foldl_cons]
      exact List.mem_cons_of_mem _ (List.mem_cons_of_mem _ h)

theorem minEAHStep_le_left (e x : MPEntry) :
    (minEAHStep e x).e_above_hull ≤ e.e_above_hull := by
  by_cases hx : x.e_above_hull < e.e_above_hull
  · simp [minEAHStep, hx]; exact le_of_lt hx
  · simp [minEAHStep, hx]

theorem minEAHStep_le_right (e x : MPEntry) :
    (minEAHStep e x).e_above_hull ≤ x.e_above_hull := by
  by_cases hx : x.e_above_hull < e.e_above_hull
  · simp [minEAHStep, hx]
  · simp [minEAHStep, hx]; exact not_lt.mp hx

theorem foldl_minEAHStep_le (es : List MPEntry) (e : MPEntry) :
    ∀ y ∈ e :: es, (es.foldl minEAHStep e).e_above_hull ≤ y.e_above_hull := by
  induction es generalizing e with
  | nil =>
    intro y hy
    rcases List.mem_cons.mp hy with h | h
    · rw [h]; simp
    · simp at h
  | cons x xs ih =>
    intro y hy
    rw [List.foldl_cons]
    have hhead := ih (minEAHStep e x) (minEAHStep e x) (List.mem_cons_self _ _)
    rcases List.mem_cons.mp hy with h | h
    · rw [h]
      exact le_trans hhead (minEAHStep_le_left e x)
    rcases List.mem_cons.mp h with h2 | h2
    · rw [h2]
      exact le_trans hhead (minEAHStep_le_right e x)
    · exact ih (minEAHStep e x) y (List.mem_cons_of_mem _ h2)

theorem firstMinEAH_mem {l : List MPEntry} {x : MPEntry}
    (h : firstMinEAH l = some x) : x ∈ l := by
  cases l with
  | nil => simp [firstMinEAH] at h
  | cons e es =>
    rw [firstMinEAH] at h
    have := foldl_minEAHStep_mem es e
    rw [Option.some_inj.mp h] at this
    exact this

theorem firstMinEAH_le {l : List MPEntry} {x : MPEntry}
    (h : firstMinEAH l = some x) :
    ∀ y ∈ l, x.e_above_hull ≤ y.e_above_hull := by
  cases l with
  | nil => simp [firstMinEAH] at h
  | cons e es =>
    rw [firstMinEAH] at h
    intro y hy
    have := foldl_minEAHStep_le es e y hy
    rw [Option.some_inj.mp h] at this
    exact this

theorem firstMinEAH_eq_none_iff {l : List MPEntry} :
    firstMinEAH l = none ↔ l = [] := by
  cases l <;> simp [firstMinEAH]

theorem processIons_cons (f : Nat → IonRecord → Except PyError PbxEntry)
    (n : Nat) (d : IonRecord) (ds : List IonRecord) :
    processIons f n (d :: ds) =
      match f n d with
      | .error e => .error e
      | .ok pe =>
        match processIons f (n + 1) ds with
        | .error e => .error e
        | .ok rest => .ok (pe :: rest) := rfl

theorem processIons_ok_length
    {f : Nat → IonRecord → Except PyError PbxEntry} :
    ∀ {n : Nat} {ds : List IonRecord} {ys : List PbxEntry},
      processIons f n ds = .ok ys → ys.length = ds.length := by
  intro n ds
  induction ds generalizing n with
  | nil =>
    intro ys h
    simp only [processIons] at h
    cases h
    rfl
  | cons d ds ih =>
    intro ys h
    rw [processIons_cons] at h
    cases hf : f n d with
    | error e => rw [hf] at h; cases h
    | ok pe =>
      rw [hf] at h
      cases hr : processIons f (n + 1) ds with
      | error e => rw [hr] at h; cases h
      | ok rest =>
        rw [hr] at h
        cases h
        simp [ih hr]

theorem processIons_ok_get
    {f : Nat → IonRecord → Except PyError PbxEntry} :
    ∀ {n : Nat} {ds : List IonRecord} {ys : List PbxEntry},
      processIons f n ds = .ok ys →
      ∀ i d, ds[i]? = some d →
        ∃ pe, ys[i]? = some pe ∧ f (n + i) d = .ok pe := by
  intro n ds
  induction ds generalizing n with
  | nil =>
    intro ys _ i d hd
    simp at hd
  | cons d0 ds ih =>
    intro ys h i d hd
    rw [processIons_cons] at h
    cases hf : f n d0 with
    | error e => rw [hf] at h; cases h
    | ok pe0 =>
      rw [hf] at h
      cases hr : processIons f (n + 1) ds with
      | error e => rw [hr] at h; cases h
      | ok rest =>
        rw [hr] at h
        cases h
        cases i with
        | zero =>
          simp at hd
          subst hd
          exact ⟨pe0, by simp, hf⟩
        | succ j =>
          simp only [List.getElem?_cons_succ] at hd
          obtain ⟨pe, h1, h2⟩ := ih hr j d hd
          refine ⟨pe, by simpa using h1, ?_⟩
          have hnj : n + 1 + j = n + (j + 1) := by omega
          rwa [hnj] at h2

theorem processIons_error_at
    {f : Nat → IonRecord → Except PyError PbxEntry} :
    ∀ {n : Nat} {ds : List IonRecord} {i : Nat} {d : IonRecord}
      {err : PyError},
      ds[i]? = some d →
      (∀ j, j < i → ∀ d2, ds[j]? = some d2 → ∃ pe, f (n + j) d2 = .ok pe) →
      f (n + i) d = .error err →
      processIons f n ds = .error err := by
  intro n ds
  induction ds generalizing n with
  | nil =>
    intro i d err hd _ _
    simp at hd
  | cons d0 ds ih =>
    intro i d err hd hprev hferr
    cases i with
    | zero =>
      simp at hd
      subst hd
      rw [Nat.add_zero] at hferr
      rw [processIons_cons, hferr]
    | succ j =>
      simp only [List.getElem?_cons_succ] at hd
      obtain ⟨pe0, hpe0⟩ := hprev 0 (Nat.succ_pos j) d0 (by simp)
      rw [Nat.add_zero] at hpe0
      have hprev2 : ∀ j2, j2 < j → ∀ d2, ds[j2]? = some d2 →
          ∃ pe, f (n + 1 + j2) d2 = .ok pe := by
        intro j2 hj2 d2 hd2
        obtain ⟨pe, hpe⟩ := hprev (j2 + 1) (by omega) d2 (by simpa using hd2)
        have hnj : n + (j2 + 1) = n + 1 + j2 := by omega
        rw [hnj] at hpe
        exact ⟨pe, hpe⟩
      have hferr2 : f (n + 1 + j) d = .error err := by
        have hnj : n + (j + 1) = n + 1 + j := by omega
        rwa [hnj] at hferr
      have hrec := ih hd hprev2 hferr2
      rw [processIons_cons, hpe0, hrec]

theorem processIons_error_exists
    {f : Nat → IonRecord → Except PyError PbxEntry} :
    ∀ {n : Nat} {ds : List IonRecord} {e : PyError},
      processIons f n ds = .error e → ∃ m d, f m d = .error e := by
  intro n ds
  induction ds generalizing n with
  | nil => intro e h; simp only [processIons] at h; cases h
  | cons d0 ds ih =>
    intro e h
    rw [processIons_cons] at h
    cases hf : f n d0 with
    | error e0 =>
      rw [hf] at h
      cases h
      exact ⟨n, d0, hf⟩
    | ok pe0 =>
      rw [hf] at h
      cases hr : processIons f (n + 1) ds with
      | error e0 =>
        rw [hr] at h
        cases h
        exact ih hr
      | ok rest => rw [hr] at h; cases h

theorem mkIonEntry_error_iff (w : MPWorld) (pdE : MPEntry → Rat)
    (entries : List MPEntry) (n : Nat) (d : IonRecord) (e : PyError) :
    mkIonEntry w pdE entries n d = .error e ↔
      (entries.filter
          (fun x => x.composition.reduced_formula == d.referenceSolid) = []
        ∧ e = .valueError refSolidErrMsg) := by
  rw [mkIonEntry]
  cases hf : firstMinEAH (entries.filter
      (fun x => x.composition.reduced_formula == d.referenceSolid)) with
  | none =>
    simp only []
    constructor
    · intro h
      cases h
      exact ⟨firstMinEAH_eq_none_iff.mp hf, rfl⟩
    · intro ⟨_, h2⟩
      rw [h2]
  | some s =>
    simp only []
    constructor
    · intro h; cases h
    · intro ⟨h1, _⟩
      rw [h1] at hf
      simp [firstMinEAH] at hf

theorem mkIonEntry_ok_spec {w : MPWorld} {pdE : MPEntry → Rat}
    {entries : List MPEntry} {n : Nat} {d : IonRecord} {pe : PbxEntry}
    (h : mkIonEntry w pdE entries n d = .ok pe) :
    ∃ stable_ref,
      stable_ref ∈ entries.filter
        (fun x => x.composition.reduced_formula == d.referenceSolid) ∧
      (∀ y ∈ entries.filter
          (fun x => x.composition.reduced_formula == d.referenceSolid),
        stable_ref.e_above_hull ≤ y.e_above_hull) ∧
      pe = .ionE
        ⟨w.ionFromFormula d.name,
         d.energy +
           (pdE stable_ref -
             d.referenceSolidEnergy * stable_ref.composition.reduced_factor) *
           ((w.ionFromFormula d.name).composition.amt
               (d.majorElements.headD "") /
             stable_ref.composition.amt (d.majorElements.headD ""))⟩
        ("ion-" ++ toString n) := by
  rw [mkIonEntry] at h
  cases hf : firstMinEAH (entries.filter
      (fun x => x.composition.reduced_formula == d.referenceSolid)) with
  | none => rw [hf] at h; cases h
  | some s =>
    rw [hf] at h
    refine ⟨s, firstMinEAH_mem hf, firstMinEAH_le hf, ?_⟩
    cases h
    rfl

theorem pbx_unfold (w : MPWorld) (chemsys : ChemsysArg)
    (sc : SolidCompatArg) (add : List MPEntry) :
    get_pourbaix_entries_w_add_entries w chemsys sc add =
      match validateSolidCompat sc with
      | none => ⟨.error (.valueError solidCompatErrMsg), []⟩
      | some _ =>
        match processIons
            (mkIonEntry w
              (w.formEnergyOfPD (ionRefEntries w (chemsysElements chemsys)))
              (ionRefEntries w (chemsysElements chemsys)))
            0 (w.ionData (chemsysElements chemsys)) with
        | .error e =>
          ⟨.error e,
           [pbxRefDataUrl (chemsysElements chemsys), "get_entries_in_chemsys"]⟩
        | .ok ionEntries =>
          ⟨.ok (ionEntries ++
              ((ionRefEntries w (chemsysElements chemsys) ++ add).filter
                (keepSolid (extraElts (ionRefElts w (chemsysElements chemsys))
                  (chemsysElements chemsys)))).map
                (mkSolidEntry
                  (w.formEnergyOfPD
                    (ionRefEntries w (chemsysElements chemsys))))),
           [pbxRefDataUrl (chemsysElements chemsys),
            "get_entries_in_chemsys"]⟩ := rfl

theorem getAllEntriesLoop_inv {α : Type} (pages : Nat → OqmdPage α)
    (mp : Option Nat) (pl : Nat) :
    ∀ fuel b res out,
      getAllEntriesLoop pages mp pl fuel b
        (((List.range b).map (fun i => (pages i).data)).flatten)
        ((List.range b).map (fun i => OqmdRequest.mk pl (i * pl) oqmdFilter))
        = some (res, out) →
      ∃ t, b < t ∧
        out = (List.range t).map (fun i => OqmdRequest.mk pl (i * pl) oqmdFilter) ∧
        res = ((List.range t).map (fun i => (pages i).data)).flatten ∧
        ∀ m, mp = some m → t ≤ m + 1 ∨ t = b + 1 := by
  intro fuel
  induction fuel with
  | zero => intro b res out h; simp [getAllEntriesLoop] at h
  | succ fuel ih =>
    intro b res out h
    simp only [getAllEntriesLoop] at h
    have hreq : ((List.range b).map
          (fun i => OqmdRequest.mk pl (i * pl) oqmdFilter)) ++
        [OqmdRequest.mk pl (b * pl) oqmdFilter] =
        (List.range (b + 1)).map
          (fun i => OqmdRequest.mk pl (i * pl) oqmdFilter) := by
      rw [List.range_succ, List.map_append]
      rfl
    have hdat : (((List.range b).map (fun i => (pages i).data)).flatten) ++
        (pages b).data =
        ((List.range (b + 1)).map (fun i => (pages i).data)).flatten := by
      rw [List.range_succ, List.map_append, List.flatten_append]
      simp
    by_cases hc : ((pages b).next && leMaxPages (b + 1) mp) = true
    · rw [if_pos hc] at h
      rw [hreq, hdat] at h
      obtain ⟨t, ht1, ht2, ht3, ht4⟩ := ih (b + 1) res out h
      refine ⟨t, by omega, ht2, ht3, ?_⟩
      intro m hm
      rcases ht4 m hm with h4 | h4
      · exact Or.inl h4
      · have hle : leMaxPages (b + 1) mp = true :=
          ((Bool.and_eq_true _ _).mp hc).2
        rw [hm] at hle
        simp [leMaxPages] at hle
        exact Or.inl (by omega)
    · rw [if_neg hc] at h
      cases h
      exact ⟨b + 1, by omega, hreq, hdat, fun m _ => Or.inr rfl⟩

theorem pbx_eq_invalid (w : MPWorld) (chemsys : ChemsysArg)
    (sc : SolidCompatArg) (add : List MPEntry)
    (hv : validateSolidCompat sc = none) :
    get_pourbaix_entries_w_add_entries w chemsys sc add =
      ⟨.error (.valueError solidCompatErrMsg), []⟩ := by
  simp only [get_pourbaix_entries_w_add_entries, hv]

theorem pbx_eq_valid_error (w : MPWorld) (chemsys : ChemsysArg)
    (sc : SolidCompatArg) (add : List MPEntry) (scheme : SolidCompatScheme)
    (e : PyError) (hv : validateSolidCompat sc = some scheme)
    (hp : processIons
        (mkIonEntry w
          (w.formEnergyOfPD (ionRefEntries w (chemsysElements chemsys)))
          (ionRefEntries w (chemsysElements chemsys)))
        0 (w.ionData (chemsysElements chemsys)) = .error e) :
    get_pourbaix_entries_w_add_entries w chemsys sc add =
      ⟨.error e,
       [pbxRefDataUrl (chemsysElements chemsys), "get_entries_in_chemsys"]⟩ := by
  simp only [get_pourbaix_entries_w_add_entries, hv, hp]

theorem pbx_eq_valid_ok (w : MPWorld) (chemsys : ChemsysArg)
    (sc : SolidCompatArg) (add : List MPEntry) (scheme : SolidCompatScheme)
    (ys : List PbxEntry) (hv : validateSolidCompat sc = some scheme)
    (hp : processIons
        (mkIonEntry w
          (w.formEnergyOfPD (ionRefEntries w (chemsysElements chemsys)))
          (ionRefEntries w (chemsysElements chemsys)))
        0 (w.ionData (chemsysElements chemsys)) = .ok ys) :
    get_pourbaix_entries_w_add_entries w chemsys sc add =
      ⟨.ok (ys ++
          ((ionRefEntries w (chemsysElements chemsys) ++ add).filter
            (keepSolid (extraElts (ionRefElts w (chemsysElements chemsys))
              (chemsysElements chemsys)))).map
            (mkSolidEntry
              (w.formEnergyOfPD (ionRefEntries w (chemsysElements chemsys))))),
       [pbxRefDataUrl (chemsysElements chemsys), "get_entries_in_chemsys"]⟩ := by
  simp only [get_pourbaix_entries_w_add_entries, hv, hp]

theorem validateSolidCompat_eq_none_iff (sc : SolidCompatArg) :
    validateSolidCompat sc = none ↔
      ¬(sc = .ofString "MaterialsProjectCompatibility" ∨
        sc = .ofString "MaterialsProject2020Compatibility" ∨
        ∃ t, sc = .compatInstance t) := by
  cases sc with
  | ofString s =>
    by_cases h1 : s = "MaterialsProjectCompatibility"
    · subst h1; simp [validateSolidCompat]
    · by_cases h2 : s = "MaterialsProject2020Compatibility"
      · subst h2; simp [validateSolidCompat]
      · simp [validateSolidCompat, h1, h2]
  | compatInstance t => simp [validateSolidCompat]
  | otherValue t => simp [validateSolidCompat]

theorem processIons_mkIonEntry_error_msg {w : MPWorld} {pdE : MPEntry → Rat}
    {entries : List MPEntry} {n : Nat} {ds : List IonRecord} {e : PyError}
    (h : processIons (mkIonEntry w pdE entries) n ds = .error e) :
    e = .valueError refSolidErrMsg := by
  obtain ⟨m, d, hf⟩ := processIons_error_exists h
  exact ((mkIonEntry_error_iff w pdE entries m d e).mp hf).2

theorem keepSolid_iff (extra : List String) (entry : MPEntry) :
    keepSolid extra entry = true ↔
      ¬((∀ x ∈ entry.composition.elements, x = "H" ∨ x = "O") ∨
        ∃ x ∈ extra, x ∈ entry.composition.elements) := by
  simp [keepSolid, List.all_eq_true, List.any_eq_true, not_or]

theorem extraElts_mem (l cs : List String) (x : String) :
    x ∈ extraElts l cs ↔ (x ∈ l ∧ x ∉ cs ∧ x ≠ "H" ∧ x ≠ "O") := by
  simp [extraElts, List.mem_filter]
  tauto

/-! ## Claim theorems -/

/-- C2: on every call in which `solid_compat` passes validation, the body
of `get_pourbaix_entries_w_add_entries` hits an unresolvable module-global
name before it can return — the first one, `itertools`, already at the
`ion_ref_elts` computation — because the module binds only the ten imported
names and its own class, while the body also references `itertools`,
`warnings`, `Element` and `ComputedEntry`; hence the call raises
`NameError` and never returns a list of Pourbaix entries. -/
theorem pbx_body_name_error :
    firstUndefinedName mpresterModuleNames pbxBodyGlobalRefs =
      some "itertools" ∧
    ("itertools" ∈ pbxBodyGlobalRefs ∧
      "itertools" ∉ mpresterModuleNames) ∧
    ("warnings" ∈ pbxBodyGlobalRefs ∧
      "warnings" ∉ mpresterModuleNames) ∧
    ("Element" ∈ pbxBodyGlobalRefs ∧
      "Element" ∉ mpresterModuleNames) ∧
    ("ComputedEntry" ∈ pbxBodyGlobalRefs ∧
      "ComputedEntry" ∉ mpresterModuleNames) := by
  decide

/-- C5 (code bug): `get_icsd_entries` does not paginate.  On a server whose
first page has data `[10]` and advertises a next link, and whose second
page holds `[20]`, the function still issues exactly one request (offset
`0`) and returns only the first page's data — the `while continue_bool`
loop present in `get_all_entries` is missing, so the accumulated result is
never extended past the first page. -/
theorem get_icsd_entries_first_page_only :
    get_icsd_entries
        (fun i => if i = 0 then OqmdPage.mk [10] true else OqmdPage.mk [20] false)
        none 100
      = ([10], [⟨100, 0, "T"⟩]) ∧
    ([10] : List Nat) ≠ [10, 20] := ⟨rfl, by decide⟩

/-- C9: `get_ase_object` extracts, per site string, the element symbol as
token 0 of the space-split and the coordinates as the parsed tokens from
index 2 onward (token 1 skipped), builds the structure on the entry's
`unit_cell` lattice, stores the atoms object and the structure back on the
entry, and returns the atoms object (the first component). -/
theorem get_ase_object_spec {C F : Type} (pf : String → F)
    (entry : OqmdEntry C F) :
    ((get_ase_object pf entry).1.struct.lattice =
      PmgLattice.mk entry.unit_cell) ∧
    ((get_ase_object pf entry).2.atoms_obj =
      some (get_ase_object pf entry).1) ∧
    ((get_ase_object pf entry).2.pmg_struct =
      some (get_ase_object pf entry).1.struct) ∧
    (∀ i : Nat, (get_ase_object pf entry).1.struct.species[i]? =
      (entry.sites[i]?).map (fun s => (s.splitOn " ").headD "")) ∧
    (∀ i : Nat, (get_ase_object pf entry).1.struct.coords[i]? =
      (entry.sites[i]?).map (fun s => ((s.splitOn " ").drop 2).map pf)) := by
  refine ⟨rfl, rfl, rfl, ?_, ?_⟩ <;> intro i <;>
    simp [get_ase_object, List.getElem?_map]

/-- C8: `write_data` writes one database row per entry, in list order, each
row holding the atoms object built by `get_ase_object` from that entry,
`source = "oqmd"`, `bulk_id = "oqmd-" ++ str(entry_id)` and
`formation_energy = delta_e`. -/
theorem write_data_spec {C F : Type} (pf : String → F)
    (entries : List (OqmdEntry C F)) :
    (write_data pf entries).length = entries.length ∧
    ∀ i : Nat, (write_data pf entries)[i]? = (entries[i]?).map
      (fun e => DbRow.mk (get_ase_object pf e).1 "oqmd"
        ("oqmd-" ++ toString e.entry_id) e.delta_e) := by
  constructor
  · simp [write_data]
  · intro i
    simp [write_data, List.getElem?_map]

/-- C7: on every terminating run of `get_all_entries`, every request of the
pagination loop carries `limit = page_limit`, `offset = batch_num *
page_limit` for its batch number (its position in the request log), and the
fixed filter string. -/
theorem get_all_entries_request_fields {α : Type} (pages : Nat → OqmdPage α)
    (mp : Option Nat) (pl fuel : Nat) (res : List α)
    (reqs : List OqmdRequest)
    (h : get_all_entries pages mp pl fuel = some (res, reqs)) :
    ∀ i, i < reqs.length → reqs[i]? = some ⟨pl, i * pl, oqmdFilter⟩ := by
  have h0 : getAllEntriesLoop pages mp pl fuel 0
      (((List.range 0).map (fun i => (pages i).data)).flatten)
      ((List.range 0).map (fun i => OqmdRequest.mk pl (i * pl) oqmdFilter))
      = some (res, reqs) := by
    simpa [get_all_entries] using h
  obtain ⟨t, _, hout, _, _⟩ :=
    getAllEntriesLoop_inv pages mp pl fuel 0 res reqs h0
  intro i hi
  rw [hout] at hi ⊢
  simp only [List.length_map, List.length_range] at hi
  simp [List.getElem?_map, List.getElem?_range hi]

/-- C7 witness: a concrete one-page run; its single request has
`limit = 3`, `offset = 0 * 3` and the fixed filter. -/
theorem get_all_entries_request_fields_witness :
    get_all_entries (fun _ => OqmdPage.mk ([] : List Nat) false) none 3 1 =
      some ([], [⟨3, 0, oqmdFilter⟩]) ∧
    (0 : Nat) < 1 ∧
    ([(⟨3, 0, oqmdFilter⟩ : OqmdRequest)])[0]? =
      some ⟨3, 0 * 3, oqmdFilter⟩ :=
  ⟨rfl, by decide,
   get_all_entries_request_fields (fun _ => OqmdPage.mk ([] : List Nat) false)
     none 3 1 [] [⟨3, 0, oqmdFilter⟩] rfl 0 (by decide)⟩

/-- C6 counterexample: with `maximum_pages = 1` and a server that always
advertises a next link, `get_all_entries` issues two requests, not at most
one — the bound is checked against `batch_num` after the increment, so up
to `m + 1` pages are fetched. -/
theorem get_all_entries_bound_counterexample :
    get_all_entries (fun _ => OqmdPage.mk [7] true) (some 1) 5 10 =
      some ([7, 7], [⟨5, 0, oqmdFilter⟩, ⟨5, 5, oqmdFilter⟩]) ∧
    ¬([(⟨5, 0, oqmdFilter⟩ : OqmdRequest), ⟨5, 5, oqmdFilter⟩].length ≤ 1) :=
  ⟨rfl, by decide⟩

/-- C6 (amended): for every `maximum_pages` value `m`, a terminating run of
`get_all_entries` issues at most `m + 1` requests, and its return value is
the concatenation, in request order, of the `"data"` lists of all fetched
pages. -/
theorem get_all_entries_bound_amended {α : Type} (pages : Nat → OqmdPage α)
    (m pl fuel : Nat) (res : List α) (reqs : List OqmdRequest)
    (h : get_all_entries pages (some m) pl fuel = some (res, reqs)) :
    reqs.length ≤ m + 1 ∧
    res = ((List.range reqs.length).map (fun i => (pages i).data)).flatten := by
  have h0 : getAllEntriesLoop pages (some m) pl fuel 0
      (((List.range 0).map (fun i => (pages i).data)).flatten)
      ((List.range 0).map (fun i => OqmdRequest.mk pl (i * pl) oqmdFilter))
      = some (res, reqs) := by
    simpa [get_all_entries] using h
  obtain ⟨t, ht0, hout, hres, hbound⟩ :=
    getAllEntriesLoop_inv pages (some m) pl fuel 0 res reqs h0
  have hlen : reqs.length = t := by
    rw [hout]; simp
  constructor
  · rcases hbound m rfl with hb | hb <;> omega
  · rw [hlen, hres]

/-- C6 witness: the three-page sample run fetches pages `0`, `1`, `2`
within the bound `5 + 1` and returns their concatenated data. -/
theorem get_all_entries_bound_amended_witness :
    get_all_entries samplePages (some 5) 2 10 = some ([0, 1, 2], sampleReqs) ∧
    (sampleReqs.length ≤ 5 + 1 ∧
      [0, 1, 2] =
        ((List.range sampleReqs.length).map
          (fun i => (samplePages i).data)).flatten) :=
  ⟨rfl, get_all_entries_bound_amended samplePages 5 2 10 [0, 1, 2] sampleReqs rfl⟩

/-- C10: `get_pourbaix_entries_w_add_entries` raises the `ValueError`
naming the accepted `solid_compat` options exactly when `solid_compat` is
neither of the two recognized strings nor a `Compatibility` instance, and
in that case the validation fires before any network request (the request
log is empty), so no Pourbaix entries are produced. -/
theorem pbx_solid_compat_validation (w : MPWorld) (chemsys : ChemsysArg)
    (sc : SolidCompatArg) (add : List MPEntry) :
    ((get_pourbaix_entries_w_add_entries w chemsys sc add).result =
        .error (.valueError solidCompatErrMsg) ↔
      ¬(sc = .ofString "MaterialsProjectCompatibility" ∨
        sc = .ofString "MaterialsProject2020Compatibility" ∨
        ∃ t, sc = .compatInstance t)) ∧
    (¬(sc = .ofString "MaterialsProjectCompatibility" ∨
        sc = .ofString "MaterialsProject2020Compatibility" ∨
        ∃ t, sc = .compatInstance t) →
      (get_pourbaix_entries_w_add_entries w chemsys sc add).requests = []) := by
  rw [← validateSolidCompat_eq_none_iff]
  constructor
  · constructor
    · intro herr
      cases hv : validateSolidCompat sc with
      | none => rfl
      | some scheme =>
        exfalso
        cases hp : processIons
            (mkIonEntry w
              (w.formEnergyOfPD (ionRefEntries w (chemsysElements chemsys)))
              (ionRefEntries w (chemsysElements chemsys)))
            0 (w.ionData (chemsysElements chemsys)) with
        | error e =>
          rw [pbx_eq_valid_error w chemsys sc add scheme e hv hp] at herr
          simp only [] at herr
          have hmsg := processIons_mkIonEntry_error_msg hp
          rw [hmsg] at herr
          have heq : refSolidErrMsg = solidCompatErrMsg := by
            injection herr with h1
            injection h1
          exact (by decide : refSolidErrMsg ≠ solidCompatErrMsg) heq
        | ok ys =>
          rw [pbx_eq_valid_ok w chemsys sc add scheme ys hv hp] at herr
          simp only [] at herr
          cases herr
    · intro hv
      rw [pbx_eq_invalid w chemsys sc add hv]
  · intro hv
    rw [pbx_eq_invalid w chemsys sc add hv]

/-- C10 witness: passing a value that is neither a recognized string nor a
`Compatibility` instance yields the compat `ValueError` with an empty
request log. -/
theorem pbx_solid_compat_validation_witness :
    ¬((SolidCompatArg.otherValue "None") = .ofString "MaterialsProjectCompatibility" ∨
      (SolidCompatArg.otherValue "None") = .ofString "MaterialsProject2020Compatibility" ∨
      ∃ t, (SolidCompatArg.otherValue "None") = .compatInstance t) ∧
    (get_pourbaix_entries_w_add_entries sampleWorld (.ofList ["Zn"])
      (.otherValue "None") []).requests = [] :=
  ⟨by simp,
   (pbx_solid_compat_validation sampleWorld (.ofList ["Zn"])
     (.otherValue "None") []).2 (by simp)⟩

/-- C1: on every returning call, the ion Pourbaix entry appended for the
`n`-th ion record has energy `Energy + solid_diff * correction_factor`,
where `stable_ref` attains the minimal `e_above_hull` among the reference
entries whose reduced formula equals the record's reference solid, `rf` is
`stable_ref`'s reduced-composition factor, `solid_diff` is the phase
diagram's formation energy of `stable_ref` minus the record's reference
solid energy times `rf`, and `correction_factor` is the ion's amount of the
record's first major element over `stable_ref`'s amount of it. -/
theorem pbx_ion_energy_correction (w : MPWorld) (chemsys : ChemsysArg)
    (sc : SolidCompatArg) (add : List MPEntry) (out : List PbxEntry)
    (n : Nat) (i_d : IonRecord)
    (hok : (get_pourbaix_entries_w_add_entries w chemsys sc add).result =
      .ok out)
    (hn : (w.ionData (chemsysElements chemsys))[n]? = some i_d) :
    ∃ stable_ref,
      stable_ref ∈ (ionRefEntries w (chemsysElements chemsys)).filter
        (fun e => e.composition.reduced_formula == i_d.referenceSolid) ∧
      (∀ y ∈ (ionRefEntries w (chemsysElements chemsys)).filter
          (fun e => e.composition.reduced_formula == i_d.referenceSolid),
        stable_ref.e_above_hull ≤ y.e_above_hull) ∧
      out[n]? = some (.ionE
        ⟨w.ionFromFormula i_d.name,
         i_d.energy +
           (w.formEnergyOfPD (ionRefEntries w (chemsysElements chemsys))
               stable_ref -
             i_d.referenceSolidEnergy * stable_ref.composition.reduced_factor) *
           ((w.ionFromFormula i_d.name).composition.amt
               (i_d.majorElements.headD "") /
             stable_ref.composition.amt (i_d.majorElements.headD ""))⟩
        ("ion-" ++ toString n)) := by
  cases hv : validateSolidCompat sc with
  | none =>
    rw [pbx_eq_invalid w chemsys sc add hv] at hok
    simp at hok
  | some scheme =>
    cases hp : processIons
        (mkIonEntry w
          (w.formEnergyOfPD (ionRefEntries w (chemsysElements chemsys)))
          (ionRefEntries w (chemsysElements chemsys)))
        0 (w.ionData (chemsysElements chemsys)) with
    | error e =>
      rw [pbx_eq_valid_error w chemsys sc add scheme e hv hp] at hok
      simp at hok
    | ok ys =>
      rw [pbx_eq_valid_ok w chemsys sc add scheme ys hv hp] at hok
      simp only [] at hok
      have hout : ys ++
          ((ionRefEntries w (chemsysElements chemsys) ++ add).filter
            (keepSolid (extraElts (ionRefElts w (chemsysElements chemsys))
              (chemsysElements chemsys)))).map
            (mkSolidEntry
              (w.formEnergyOfPD (ionRefEntries w (chemsysElements chemsys))))
          = out := by
        injection hok
      obtain ⟨pe, hpe1, hpe2⟩ := processIons_ok_get hp n i_d hn
      rw [Nat.zero_add] at hpe2
      obtain ⟨sr, hsr1, hsr2, hsr3⟩ := mkIonEntry_ok_spec hpe2
      refine ⟨sr, hsr1, hsr2, ?_⟩
      have hnlt : n < ys.length := by
        rw [processIons_ok_length hp]
        exact (List.getElem?_eq_some_iff.mp hn).1
      rw [← hout, List.getElem?_append_left hnlt, hpe1, hsr3]

/-- C1 witness: the sample run returns, its single ion record is aligned
against `sampleRefEntry` and the appended ion entry has energy
`2 + (5 - 3 * 1) * (1 / 1) = 4`. -/
theorem pbx_ion_energy_correction_witness :
    (get_pourbaix_entries_w_add_entries sampleWorld (.ofList ["Zn"])
        (.ofString "MaterialsProject2020Compatibility") []).result =
      .ok sampleOut ∧
    (sampleWorld.ionData (chemsysElements (.ofList ["Zn"])))[0]? =
      some sampleIonRecord ∧
    ∃ stable_ref,
      stable_ref ∈ (ionRefEntries sampleWorld
          (chemsysElements (.ofList ["Zn"]))).filter
        (fun e => e.composition.reduced_formula ==
          sampleIonRecord.referenceSolid) ∧
      (∀ y ∈ (ionRefEntries sampleWorld
            (chemsysElements (.ofList ["Zn"]))).filter
          (fun e => e.composition.reduced_formula ==
            sampleIonRecord.referenceSolid),
        stable_ref.e_above_hull ≤ y.e_above_hull) ∧
      sampleOut[0]? = some (.ionE
        ⟨sampleWorld.ionFromFormula sampleIonRecord.name,
         sampleIonRecord.energy +
           (sampleWorld.formEnergyOfPD
               (ionRefEntries sampleWorld (chemsysElements (.ofList ["Zn"])))
               stable_ref -
             sampleIonRecord.referenceSolidEnergy *
               stable_ref.composition.reduced_factor) *
           ((sampleWorld.ionFromFormula
               sampleIonRecord.name).composition.amt
               (sampleIonRecord.majorElements.headD "") /
             stable_ref.composition.amt
               (sampleIonRecord.majorElements.headD ""))⟩
        ("ion-" ++ toString 0)) := by
  have hok : (get_pourbaix_entries_w_add_entries sampleWorld (.ofList ["Zn"])
      (.ofString "MaterialsProject2020Compatibility") []).result =
      .ok sampleOut := by
    have hp : processIons
        (mkIonEntry sampleWorld
          (sampleWorld.formEnergyOfPD
            (ionRefEntries sampleWorld (chemsysElements (.ofList ["Zn"]))))
          (ionRefEntries sampleWorld (chemsysElements (.ofList ["Zn"]))))
        0 (sampleWorld.ionData (chemsysElements (.ofList ["Zn"]))) =
        .ok [sampleIonPbx] := by
      norm_num [processIons, mkIonEntry, ionRefEntries, ionRefElts,
        sampleWorld, sampleIonRecord, sampleIonPbx, firstMinEAH, minEAHStep,
        sampleRefEntry, sampleCompZnO, sampleCompZn, Composition.amt,
        chemsysElements]
      decide
    rw [pbx_eq_valid_ok sampleWorld (.ofList ["Zn"])
      (.ofString "MaterialsProject2020Compatibility") [] .mp2020Compat
      [sampleIonPbx] rfl hp]
    rfl
  exact ⟨hok, rfl,
    pbx_ion_energy_correction sampleWorld (.ofList ["Zn"])
      (.ofString "MaterialsProject2020Compatibility") [] sampleOut 0
      sampleIonRecord hok rfl⟩

/-- C3: every returning call produces, in order, one ion `PourbaixEntry`
per ion record labelled `"ion-" ++ n` with `n` the record's index, followed
by one solid `PourbaixEntry` (formation energy from the phase diagram) for
exactly those entries of the processed reference entries concatenated with
`additional_entries` that are kept by the solid filter; the final two
conjuncts characterize the filter — the entry's element set is neither a
subset of `{H, O}` nor intersects the extra elements, which are the
reference-solid elements outside the chemsys and distinct from `H` and
`O`. -/
theorem pbx_output_structure (w : MPWorld) (chemsys : ChemsysArg)
    (sc : SolidCompatArg) (add : List MPEntry) (out : List PbxEntry)
    (hok : (get_pourbaix_entries_w_add_entries w chemsys sc add).result =
      .ok out) :
    ∃ ionPart solidPart,
      out = ionPart ++ solidPart ∧
      ionPart.length = (w.ionData (chemsysElements chemsys)).length ∧
      (∀ n, n < ionPart.length →
        ∃ ie, ionPart[n]? = some (.ionE ie ("ion-" ++ toString n))) ∧
      solidPart = ((ionRefEntries w (chemsysElements chemsys) ++ add).filter
          (keepSolid (extraElts (ionRefElts w (chemsysElements chemsys))
            (chemsysElements chemsys)))).map
          (mkSolidEntry
            (w.formEnergyOfPD (ionRefEntries w (chemsysElements chemsys)))) ∧
      (∀ entry, keepSolid (extraElts (ionRefElts w (chemsysElements chemsys))
          (chemsysElements chemsys)) entry = true ↔
        ¬((∀ x ∈ entry.composition.elements, x = "H" ∨ x = "O") ∨
          ∃ x ∈ extraElts (ionRefElts w (chemsysElements chemsys))
            (chemsysElements chemsys), x ∈ entry.composition.elements)) ∧
      (∀ x, x ∈ extraElts (ionRefElts w (chemsysElements chemsys))
          (chemsysElements chemsys) ↔
        (x ∈ ionRefElts w (chemsysElements chemsys) ∧
          x ∉ chemsysElements chemsys ∧ x ≠ "H" ∧ x ≠ "O")) := by
  cases hv : validateSolidCompat sc with
  | none =>
    rw [pbx_eq_invalid w chemsys sc add hv] at hok
    simp at hok
  | some scheme =>
    cases hp : processIons
        (mkIonEntry w
          (w.formEnergyOfPD (ionRefEntries w (chemsysElements chemsys)))
          (ionRefEntries w (chemsysElements chemsys)))
        0 (w.ionData (chemsysElements chemsys)) with
    | error e =>
      rw [pbx_eq_valid_error w chemsys sc add scheme e hv hp] at hok
      simp at hok
    | ok ys =>
      rw [pbx_eq_valid_ok w chemsys sc add scheme ys hv hp] at hok
      simp only [] at hok
      have hout : ys ++
          ((ionRefEntries w (chemsysElements chemsys) ++ add).filter
            (keepSolid (extraElts (ionRefElts w (chemsysElements chemsys))
              (chemsysElements chemsys)))).map
            (mkSolidEntry
              (w.formEnergyOfPD (ionRefEntries w (chemsysElements chemsys))))
          = out := by
        injection hok
      refine ⟨ys, _, hout.symm, processIons_ok_length hp, ?_, rfl,
        fun entry => keepSolid_iff _ entry,
        fun x => extraElts_mem _ _ x⟩
      intro n hn
      have hlen : n < (w.ionData (chemsysElements chemsys)).length := by
        rw [← processIons_ok_length hp]; exact hn
      have hd : (w.ionData (chemsysElements chemsys))[n]? =
          some ((w.ionData (chemsysElements chemsys)).get ⟨n, hlen⟩) := by
        simp
      obtain ⟨pe, hpe1, hpe2⟩ := processIons_ok_get hp n _ hd
      rw [Nat.zero_add] at hpe2
      obtain ⟨_, _, _, hsr3⟩ := mkIonEntry_ok_spec hpe2
      exact ⟨_, by rw [hpe1, hsr3]⟩

/-- C3 witness: the sample run returns the ion entry labelled `"ion-0"`
followed by the one kept solid entry. -/
theorem pbx_output_structure_witness :
    (get_pourbaix_entries_w_add_entries sampleWorld (.ofList ["Zn"])
        (.ofString "MaterialsProject2020Compatibility") []).result =
      .ok sampleOut ∧
    ∃ ionPart solidPart,
      sampleOut = ionPart ++ solidPart ∧
      ionPart.length =
        (sampleWorld.ionData (chemsysElements (.ofList ["Zn"]))).length ∧
      (∀ n, n < ionPart.length →
        ∃ ie, ionPart[n]? = some (.ionE ie ("ion-" ++ toString n))) ∧
      solidPart = ((ionRefEntries sampleWorld (chemsysElements (.ofList ["Zn"]))
            ++ []).filter
          (keepSolid
            (extraElts (ionRefElts sampleWorld (chemsysElements (.ofList ["Zn"])))
              (chemsysElements (.ofList ["Zn"]))))).map
          (mkSolidEntry
            (sampleWorld.formEnergyOfPD
              (ionRefEntries sampleWorld (chemsysElements (.ofList ["Zn"]))))) ∧
      (∀ entry, keepSolid
          (extraElts (ionRefElts sampleWorld (chemsysElements (.ofList ["Zn"])))
            (chemsysElements (.ofList ["Zn"]))) entry = true ↔
        ¬((∀ x ∈ entry.composition.elements, x = "H" ∨ x = "O") ∨
          ∃ x ∈ extraElts
              (ionRefElts sampleWorld (chemsysElements (.ofList ["Zn"])))
              (chemsysElements (.ofList ["Zn"])),
            x ∈ entry.composition.elements)) ∧
      (∀ x, x ∈ extraElts
          (ionRefElts sampleWorld (chemsysElements (.ofList ["Zn"])))
          (chemsysElements (.ofList ["Zn"])) ↔
        (x ∈ ionRefElts sampleWorld (chemsysElements (.ofList ["Zn"])) ∧
          x ∉ chemsysElements (.ofList ["Zn"]) ∧ x ≠ "H" ∧ x ≠ "O")) := by
  have hok : (get_pourbaix_entries_w_add_entries sampleWorld (.ofList ["Zn"])
      (.ofString "MaterialsProject2020Compatibility") []).result =
      .ok sampleOut := by
    have hp : processIons
        (mkIonEntry sampleWorld
          (sampleWorld.formEnergyOfPD
            (ionRefEntries sampleWorld (chemsysElements (.ofList ["Zn"]))))
          (ionRefEntries sampleWorld (chemsysElements (.ofList ["Zn"]))))
        0 (sampleWorld.ionData (chemsysElements (.ofList ["Zn"]))) =
        .ok [sampleIonPbx] := by
      norm_num [processIons, mkIonEntry, ionRefEntries, ionRefElts,
        sampleWorld, sampleIonRecord, sampleIonPbx, firstMinEAH, minEAHStep,
        sampleRefEntry, sampleCompZnO, sampleCompZn, Composition.amt,
        chemsysElements]
      decide
    rw [pbx_eq_valid_ok sampleWorld (.ofList ["Zn"])
      (.ofString "MaterialsProject2020Compatibility") [] .mp2020Compat
      [sampleIonPbx] rfl hp]
    rfl
  exact ⟨hok,
    pbx_output_structure sampleWorld (.ofList ["Zn"])
      (.ofString "MaterialsProject2020Compatibility") [] sampleOut hok⟩

/-- C4: when the loop reaches ion record `n` (validation succeeded and
every earlier record was processed successfully), then: if no processed
reference entry's reduced formula equals the record's `"Reference Solid"`,
the call raises `ValueError` with message `"Reference solid not contained
in entry list"`; otherwise the record is processed successfully and its ion
energy is aligned against a reference entry whose reduced formula equals
the record's reference solid. -/
theorem pbx_reference_solid_check (w : MPWorld) (chemsys : ChemsysArg)
    (sc : SolidCompatArg) (add : List MPEntry) (scheme : SolidCompatScheme)
    (n : Nat) (i_d : IonRecord)
    (hv : validateSolidCompat sc = some scheme)
    (hn : (w.ionData (chemsysElements chemsys))[n]? = some i_d)
    (hprev : ∀ j, j < n → ∀ d2,
      (w.ionData (chemsysElements chemsys))[j]? = some d2 →
      ∃ pe, mkIonEntry w
        (w.formEnergyOfPD (ionRefEntries w (chemsysElements chemsys)))
        (ionRefEntries w (chemsysElements chemsys)) j d2 = .ok pe) :
    ((ionRefEntries w (chemsysElements chemsys)).filter
        (fun e => e.composition.reduced_formula == i_d.referenceSolid) = [] →
      (get_pourbaix_entries_w_add_entries w chemsys sc add).result =
        .error (.valueError refSolidErrMsg)) ∧
    ((ionRefEntries w (chemsysElements chemsys)).filter
        (fun e => e.composition.reduced_formula == i_d.referenceSolid) ≠ [] →
      ∃ stable_ref,
        stable_ref ∈ ionRefEntries w (chemsysElements chemsys) ∧
        stable_ref.composition.reduced_formula = i_d.referenceSolid ∧
        mkIonEntry w
          (w.formEnergyOfPD (ionRefEntries w (chemsysElements chemsys)))
          (ionRefEntries w (chemsysElements chemsys)) n i_d =
          .ok (.ionE
            ⟨w.ionFromFormula i_d.name,
             i_d.energy +
               (w.formEnergyOfPD (ionRefEntries w (chemsysElements chemsys))
                   stable_ref -
                 i_d.referenceSolidEnergy *
                   stable_ref.composition.reduced_factor) *
               ((w.ionFromFormula i_d.name).composition.amt
                   (i_d.majorElements.headD "") /
                 stable_ref.composition.amt (i_d.majorElements.headD ""))⟩
            ("ion-" ++ toString n))) := by
  constructor
  · intro hfil
    have herr : mkIonEntry w
        (w.formEnergyOfPD (ionRefEntries w (chemsysElements chemsys)))
        (ionRefEntries w (chemsysElements chemsys)) n i_d =
        .error (.valueError refSolidErrMsg) :=
      (mkIonEntry_error_iff _ _ _ _ _ _).mpr ⟨hfil, rfl⟩
    have hprev0 : ∀ j, j < n → ∀ d2,
        (w.ionData (chemsysElements chemsys))[j]? = some d2 →
        ∃ pe, mkIonEntry w
          (w.formEnergyOfPD (ionRefEntries w (chemsysElements chemsys)))
          (ionRefEntries w (chemsysElements chemsys)) (0 + j) d2 = .ok pe := by
      intro j hj d2 hd2
      rw [Nat.zero_add]
      exact hprev j hj d2 hd2
    have herr0 : mkIonEntry w
        (w.formEnergyOfPD (ionRefEntries w (chemsysElements chemsys)))
        (ionRefEntries w (chemsysElements chemsys)) (0 + n) i_d =
        .error (.valueError refSolidErrMsg) := by
      rw [Nat.zero_add]; exact herr
    have hp := processIons_error_at hn hprev0 herr0
    rw [pbx_eq_valid_error w chemsys sc add scheme
      (.valueError refSolidErrMsg) hv hp]
  · intro hfil
    cases hf : firstMinEAH ((ionRefEntries w (chemsysElements chemsys)).filter
        (fun e => e.composition.reduced_formula == i_d.referenceSolid)) with
    | none => exact absurd (firstMinEAH_eq_none_iff.mp hf) hfil
    | some s =>
      have hmem := firstMinEAH_mem hf
      rw [List.mem_filter] at hmem
      refine ⟨s, hmem.1, by simpa using hmem.2, ?_⟩
      rw [mkIonEntry, hf]

/-- C4 witness: in `sampleWorldNoRef` the reference-entry list is empty, no
entry matches `"ZnO"`, and the call fails with the reference-solid
`ValueError`. -/
theorem pbx_reference_solid_check_witness :
    validateSolidCompat (.ofString "MaterialsProject2020Compatibility") =
      some .mp2020Compat ∧
    (sampleWorldNoRef.ionData (chemsysElements (.ofList ["Zn"])))[0]? =
      some sampleIonRecord ∧
    (((ionRefEntries sampleWorldNoRef (chemsysElements (.ofList ["Zn"]))).filter
        (fun e => e.composition.reduced_formula ==
          sampleIonRecord.referenceSolid) = [] →
      (get_pourbaix_entries_w_add_entries sampleWorldNoRef (.ofList ["Zn"])
          (.ofString "MaterialsProject2020Compatibility") []).result =
        .error (.valueError refSolidErrMsg)) ∧
    ((ionRefEntries sampleWorldNoRef (chemsysElements (.ofList ["Zn"]))).filter
        (fun e => e.composition.reduced_formula ==
          sampleIonRecord.referenceSolid) ≠ [] →
      ∃ stable_ref,
        stable_ref ∈ ionRefEntries sampleWorldNoRef
          (chemsysElements (.ofList ["Zn"])) ∧
        stable_ref.composition.reduced_formula =
          sampleIonRecord.referenceSolid ∧
        mkIonEntry sampleWorldNoRef
          (sampleWorldNoRef.formEnergyOfPD
            (ionRefEntries sampleWorldNoRef (chemsysElements (.ofList ["Zn"]))))
          (ionRefEntries sampleWorldNoRef (chemsysElements (.ofList ["Zn"])))
          0 sampleIonRecord =
          .ok (.ionE
            ⟨sampleWorldNoRef.ionFromFormula sampleIonRecord.name,
             sampleIonRecord.energy +
               (sampleWorldNoRef.formEnergyOfPD
                   (ionRefEntries sampleWorldNoRef
                     (chemsysElements (.ofList ["Zn"]))) stable_ref -
                 sampleIonRecord.referenceSolidEnergy *
                   stable_ref.composition.reduced_factor) *
               ((sampleWorldNoRef.ionFromFormula
                   sampleIonRecord.name).composition.amt
                   (sampleIonRecord.majorElements.headD "") /
                 stable_ref.composition.amt
                   (sampleIonRecord.majorElements.headD ""))⟩
            ("ion-" ++ toString 0)))) :=
  ⟨rfl, rfl,
   pbx_reference_solid_check sampleWorldNoRef (.ofList ["Zn"])
     (.ofString "MaterialsProject2020Compatibility") [] .mp2020Compat 0
     sampleIonRecord rfl rfl
     (fun j hj => absurd hj (Nat.not_lt_zero j))⟩

end OCP
